import Mathlib

/-!
Shallow embedding of the mca transcript-to-clip pipeline
(scripts/processors/youtube_processor.py and scripts/main.py).

Python floats are modelled as rationals (`ℚ`), Python strings as `String`,
segment dictionaries as the `Segment` structure.  External effects (ffprobe,
ffmpeg, the filesystem) are modelled as explicit oracle parameters; the pure
computations (text normalisation, scoring, window search, segment merging,
timestamp arithmetic, control flow of the strategy loop) are translated
directly from the source.
-/

/- Batteries marks the rational operations irreducible, which blocks the
kernel evaluation used by the concrete witnesses below; restore the default
reducibility for this file. -/
attribute [local semireducible] Rat.add Rat.mul Rat.inv Rat.sub

namespace Mca

/-! ## Python string primitives -/

/-- Whitespace characters recognised by Python str.strip / str.split. -/
def isSpc (c : Char) : Bool :=
  c == ' ' || c == Char.ofNat 9 || c == Char.ofNat 10 || c == Char.ofNat 13 ||
  c == Char.ofNat 11 || c == Char.ofNat 12

/-- Python str.strip on a character list. -/
def stripChars (l : List Char) : List Char :=
  ((l.dropWhile isSpc).reverse.dropWhile isSpc).reverse

/-- Python str.strip. -/
def pyStrip (s : String) : String := ⟨stripChars s.data⟩

/-- Characters kept by the matcher normalisation: regex word characters and
the apostrophe (everything else is replaced by a space, as the source's
re.sub of the class complementing word chars, whitespace and apostrophe). -/
def keepChar (c : Char) : Bool :=
  c.isAlpha || c.isDigit || c == '_' || c == Char.ofNat 39

def normChar (c : Char) : Char := if keepChar c then c.toLower else ' '

/-- Split on spaces, dropping empty pieces (Python str.split with no
argument, after all whitespace has been mapped to plain spaces). -/
def splitWordsAux : List Char → List Char → List String
  | [], acc => if acc.isEmpty then [] else [⟨acc.reverse⟩]
  | c :: rest, acc =>
    if c == ' ' then
      if acc.isEmpty then splitWordsAux rest []
      else ⟨acc.reverse⟩ :: splitWordsAux rest []
    else splitWordsAux rest (c :: acc)

/-- The word list of `normalize_text s` (lowercase, punctuation stripped). -/
def normWords (s : String) : List String :=
  splitWordsAux (s.data.map normChar) []

/-- DebuggingQuoteMatcher.normalize_text: lowercase, strip punctuation except
apostrophes, collapse whitespace, strip. -/
def normalize_text (s : String) : String := " ".intercalate (normWords s)

/-- Boolean list-prefix test. -/
def prefixOfList : List Char → List Char → Bool
  | [], _ => true
  | _ :: _, [] => false
  | a :: as, b :: bs => a == b && prefixOfList as bs

/-- Python substring containment (needle in haystack). -/
def containsSub (needle : List Char) : List Char → Bool
  | [] => prefixOfList needle []
  | c :: rest => prefixOfList needle (c :: rest) || containsSub needle rest

/-! ## difflib.SequenceMatcher ratio (the standard-library fallback used by
DebuggingQuoteMatcher.sequence_similarity when rapidfuzz is absent) -/

/-- Length of the common run at the heads of two character lists. -/
def commonRunLen : List Char → List Char → ℕ
  | a :: as, b :: bs => if a == b then commonRunLen as bs + 1 else 0
  | _, _ => 0

/-- difflib find_longest_match over whole lists (no junk: inputs are shorter
than the autojunk limit).  Returns (i, j, size); ties keep the smallest i,
then the smallest j, exactly as difflib scans i then j in increasing order
and only improves on strictly larger sizes. -/
def bestBlockScan : ℕ × ℕ × ℕ → List (ℕ × ℕ × ℕ) → ℕ × ℕ × ℕ
  | best, [] => best
  | (bi, bj, bk), c :: rest =>
    if c.2.2 > bk then bestBlockScan c rest else bestBlockScan (bi, bj, bk) rest

def bestBlock (a b : List Char) : ℕ × ℕ × ℕ :=
  bestBlockScan (0, 0, 0) ((List.range a.length).flatMap fun i =>
    (List.range b.length).map fun j => (i, j, commonRunLen (a.drop i) (b.drop j)))

/-- Total size of all matching blocks (difflib get_matching_blocks), by
recursive splitting around the longest match.  The fuel argument only bounds
the recursion depth; matchTotal supplies enough for any input. -/
def matchTotalGo : ℕ → List Char → List Char → ℕ
  | 0, _, _ => 0
  | fuel + 1, a, b =>
    let ijk := bestBlock a b
    let i := ijk.1
    let j := ijk.2.1
    let k := ijk.2.2
    if k = 0 then 0
    else matchTotalGo fuel (a.take i) (b.take j) + k +
         matchTotalGo fuel (a.drop (i + k)) (b.drop (j + k))

def matchTotal (a b : List Char) : ℕ :=
  matchTotalGo (a.length + b.length + 1) a b

/-- SequenceMatcher(None, a, b).ratio(): 2·M / (|a| + |b|), and 1.0 when both
strings are empty (difflib _calculate_ratio). -/
def sequence_similarity (text1 text2 : String) : ℚ :=
  let la := text1.data.length
  let lb := text2.data.length
  if la + lb = 0 then 1
  else 2 * (matchTotal text1.data text2.data : ℚ) / ((la : ℚ) + (lb : ℚ))

/-! ## DebuggingQuoteMatcher scoring -/

def stop_words : List String :=
  ["the", "and", "or", "but", "in", "on", "at", "to", "for", "of", "with",
   "by", "from", "up", "about", "into", "through", "during", "before",
   "after", "above", "below", "between", "among", "is", "are", "was",
   "were", "be", "been", "being", "have", "has", "had", "do", "does",
   "did", "will", "would", "should", "could", "can", "may", "might",
   "must", "shall", "this", "that", "these", "those", "i", "you", "he",
   "she", "it", "we", "they", "me", "him", "her", "us", "them", "my",
   "your", "his", "its", "our", "their", "a", "an"]

/-- DebuggingQuoteMatcher.extract_keywords with the default min_length 3. -/
def extract_keywords (text : String) : List String :=
  (normWords text).filter fun w => decide (3 ≤ w.length) && !(stop_words.contains w)

/-- The set of normalised words of a text. -/
def wordSet (s : String) : Finset String := (normWords s).toFinset

/-- DebuggingQuoteMatcher.word_overlap_score: 0.4·Jaccard + 0.6·coverage of
the first text's words by the intersection; 0 when either word set is empty. -/
def word_overlap_score (text1 text2 : String) : ℚ :=
  let words1 := wordSet text1
  let words2 := wordSet text2
  if words1 = ∅ ∨ words2 = ∅ then 0
  else
    let inter := words1 ∩ words2
    let union := words1 ∪ words2
    let jaccard : ℚ := (inter.card : ℚ) / (union.card : ℚ)
    let quoteCoverage : ℚ := (inter.card : ℚ) / (words1.card : ℚ)
    2/5 * jaccard + 3/5 * quoteCoverage

/-- DebuggingQuoteMatcher.keyword_match_score: fraction of the quote's
keywords (with multiplicity) present among the text's keywords. -/
def keyword_match_score (quote text : String) : ℚ :=
  let qk := extract_keywords quote
  let tk := extract_keywords text
  if qk = [] then 0
  else ((qk.countP fun w => tk.contains w : ℕ) : ℚ) / (qk.length : ℚ)

/-- DebuggingQuoteMatcher._calculate_all_scores. -/
structure Scores where
  sequence : ℚ
  wordOverlap : ℚ
  keywordMatch : ℚ

def calculate_all_scores (quote text : String) : Scores where
  sequence := sequence_similarity (normalize_text quote) (normalize_text text)
  wordOverlap := word_overlap_score quote text
  keywordMatch := keyword_match_score quote text

/-- The weighted combination 0.3·sequence + 0.4·word_overlap + 0.3·keyword
from find_best_match. -/
def final_score (quote text : String) : ℚ :=
  let s := calculate_all_scores quote text
  3/10 * s.sequence + 2/5 * s.wordOverlap + 3/10 * s.keywordMatch

/-- The length bonus from find_best_match, as computed on candidates whose
normalised text is non-empty.  On a candidate that normalises to zero words
the Python source raises ZeroDivisionError at the length-ratio division and
no bonus is ever produced: that crash path is modelled explicitly by
scoreLoopExc below, which raises before this value is consulted, so the
total value 1 returned here on that input is never observed by a completed
run of the source. -/
def length_bonus (quote text : String) : ℚ :=
  let quoteWords := normWords quote
  let textWordCount := (normWords text).length
  if quoteWords.length > 0 then
    let lengthRatio :=
      min ((textWordCount : ℚ) / (quoteWords.length : ℚ))
          ((quoteWords.length : ℚ) / (textWordCount : ℚ))
    1 + 1/5 * max 0 (lengthRatio - 1/2)
  else 1

/-- adjusted_score = final_score · length_bonus, as in find_best_match. -/
def adjusted_score (quote text : String) : ℚ :=
  final_score quote text * length_bonus quote text

/-! ## Segments and the window search -/

/-- One transcript segment record {start, end, text}. -/
structure Segment where
  start : ℚ
  «end» : ℚ
  text : String
deriving DecidableEq

/-- DebuggingQuoteMatcher._find_exact_substring (short-quote path). -/
def find_exact_substring (segments : List Segment) (quote : String)
    (contextPadding : ℚ) : Option (ℚ × ℚ × String) :=
  let nq := (normalize_text quote).map Char.toLower
  match segments.find? (fun seg =>
      containsSub nq.data (((normalize_text seg.text).map Char.toLower).data)) with
  | some seg => some (max 0 (seg.start - contextPadding), seg.«end» + contextPadding, seg.text)
  | none => none

/-- Window size catalog of find_best_match. -/
def window_sizes_catalog : List ℕ := [1, 2, 3, 5, 8]

/-- All candidate windows, in the search's iteration order: window sizes from
the catalog (filtered to the segment count), then every start index. -/
def candidateWindows (segments : List Segment) : List (List Segment) :=
  ((window_sizes_catalog.filter fun w => w ≤ segments.length).flatMap fun ws =>
    (List.range (segments.length - ws + 1)).map fun i => (segments.drop i).take ws)

/-- State of the best-candidate scan. -/
structure BestState where
  bestScore : ℚ
  bestMatch : Option (ℚ × ℚ × String)

/-- One iteration of the candidate loop of find_best_match: skip windows with
blank combined text, otherwise keep the strictly best adjusted score. -/
def considerWindow (quote : String) (st : BestState) (window : List Segment) :
    BestState :=
  let combined := " ".intercalate (window.map fun s => s.text)
  if pyStrip combined = "" then st
  else
    let adjusted := adjusted_score quote combined
    if adjusted > st.bestScore then
      let startTime := (window.head?.map fun s => s.start).getD 0
      let endTime := (window.getLast?.map fun s => s.«end»).getD 0
      { bestScore := adjusted, bestMatch := some (startTime, endTime, pyStrip combined) }
    else st

/-- Tiered acceptance threshold keyed to the quote word count. -/
def min_threshold (quoteWordCount : ℕ) : ℚ :=
  if quoteWordCount ≤ 5 then 1/2 else if quoteWordCount ≤ 10 then 2/5 else 7/20

/-- Context padding applied on acceptance (find_best_match lines 221-222):
the start is only padded when it exceeds the padding amount; the end is
always padded. -/
def applyContextPadding (rawStart rawEnd contextPadding : ℚ) : ℚ × ℚ :=
  (if rawStart > contextPadding then max 0 (rawStart - contextPadding) else rawStart,
   rawEnd + contextPadding)

/-- DebuggingQuoteMatcher.find_best_match.  The maxWindow parameter is
accepted (as in the source signature) but never read by the body. -/
def find_best_match (segments : List Segment) (quote : String) (maxWindow : ℕ)
    (contextPadding : ℚ) : Option (ℚ × ℚ × String) :=
  if quote = "" ∨ segments = [] then none
  else
    let quoteWords := normWords quote
    if quoteWords.length < 2 then find_exact_substring segments quote contextPadding
    else
      let st := (candidateWindows segments).foldl (considerWindow quote) ⟨0, none⟩
      if st.bestScore ≥ min_threshold quoteWords.length then
        match st.bestMatch with
        | some (rawStart, rawEnd, text) =>
          let padded := applyContextPadding rawStart rawEnd contextPadding
          some (padded.1, padded.2, text)
        | none => none
      else none

/-- YouTubeProcessor.find_quote_timestamps: delegates to find_best_match,
forwarding window as max_window and dropping threshold entirely. -/
def find_quote_timestamps (segments : List Segment) (quote : String)
    (window : ℕ) (threshold : ℚ) (contextPadding : ℚ) : Option (ℚ × ℚ × String) :=
  find_best_match segments quote window contextPadding

/-- main.find_quote_timestamps: convenience wrapper with the same defaults. -/
def main_find_quote_timestamps (segments : List Segment) (quote : String)
    (window : ℕ) (threshold : ℚ) (contextPadding : ℚ) : Option (ℚ × ℚ × String) :=
  find_quote_timestamps segments quote window threshold contextPadding

/-- Message of Python's uncaught ZeroDivisionError on an integer division by
zero, as surfaced to the caller by the script-level handler via str(e). -/
def errDivisionByZero : String := "division by zero"

/-- The candidate loop of find_best_match with the source's crash behaviour
made explicit.  A candidate whose combined text is blank is skipped; a
candidate whose text is non-blank but normalises to zero words reaches the
length-ratio computation with text_word_count = 0, so the division
len(quote_words) / text_word_count raises ZeroDivisionError and no later
candidate is visited.  (The component scores computed before that line are
all guarded divisions and cannot raise.)  Otherwise the candidate updates
the running best exactly as considerWindow does. -/
def scoreLoopExc (quote : String) : BestState → List (List Segment) →
    Except String BestState
  | st, [] => .ok st
  | st, window :: rest =>
    let combined := " ".intercalate (window.map fun s => s.text)
    if pyStrip combined = "" then scoreLoopExc quote st rest
    else if (normWords combined).length = 0 then .error errDivisionByZero
    else scoreLoopExc quote (considerWindow quote st window) rest

/-- find_best_match including the ZeroDivisionError escape of its scoring
loop.  On inputs where no scored candidate is degenerate it completes and
agrees with the pure find_best_match (find_best_match_exc_ok_agrees). -/
def find_best_match_exc (segments : List Segment) (quote : String) (maxWindow : ℕ)
    (contextPadding : ℚ) : Except String (Option (ℚ × ℚ × String)) :=
  if quote = "" ∨ segments = [] then .ok none
  else
    let quoteWords := normWords quote
    if quoteWords.length < 2 then .ok (find_exact_substring segments quote contextPadding)
    else
      match scoreLoopExc quote ⟨0, none⟩ (candidateWindows segments) with
      | .error e => .error e
      | .ok st =>
        .ok (if st.bestScore ≥ min_threshold quoteWords.length then
              match st.bestMatch with
              | some (rawStart, rawEnd, text) =>
                let padded := applyContextPadding rawStart rawEnd contextPadding
                some (padded.1, padded.2, text)
              | none => none
            else none)

/-- YouTubeProcessor.find_quote_timestamps with the exception escape: the
method wraps find_best_match in logging only, so an uncaught error
propagates through it unchanged. -/
def find_quote_timestamps_exc (segments : List Segment) (quote : String)
    (window : ℕ) (threshold : ℚ) (contextPadding : ℚ) :
    Except String (Option (ℚ × ℚ × String)) :=
  find_best_match_exc segments quote window contextPadding

/-! ## YouTubeProcessor.merge_short_segments -/

/-- Running chunk of the merge loop (segment_count is not observable in the
output and is omitted). -/
structure Chunk where
  start : ℚ
  «end» : ℚ
  text : String

/-- Sentence punctuation in the last ten characters of the chunk text. -/
def sentencePunctTail (text : String) : Bool :=
  (text.data.reverse.take 10).any fun c => c == '.' || c == '!' || c == '?'

/-- The next segment text starts with a dash or bullet. -/
def startsWithDash (text : String) : Bool :=
  match text.data with
  | [] => false
  | c :: _ => c == '-' || c == '•' || c == '—'

def transition_phrases : List String :=
  ["so ", "now ", "but ", "and so", "okay", "alright"]

/-- A transition phrase occurs in the first twenty characters of the
lowercased segment text. -/
def transitionStart (text : String) : Bool :=
  let head20 := (text.data.map Char.toLower).take 20
  transition_phrases.any fun p => containsSub p.data head20

/-- Natural break points of merge_short_segments, checked only once the
current chunk has reached the minimum duration. -/
def naturalBreak (cur : Chunk) (segText : String) : Bool :=
  sentencePunctTail cur.text || startsWithDash segText || transitionStart segText

/-- Finalising a chunk keeps it only when it lasts at least one second. -/
def emitChunk (cur : Chunk) : List Segment :=
  if cur.«end» - cur.start ≥ 1 then [⟨cur.start, cur.«end», pyStrip cur.text⟩] else []

/-- The merge loop with a live current chunk. -/
def mergeGo (minD maxD : ℚ) : Chunk → List Segment → List Segment
  | cur, [] => emitChunk cur
  | cur, s :: rest =>
    let text := pyStrip s.text
    if text = "" then mergeGo minD maxD cur rest
    else
      let potential := s.«end» - cur.start
      let shouldExtend :=
        decide (potential ≤ maxD) &&
        !(decide (cur.«end» - cur.start ≥ minD) && naturalBreak cur text)
      if shouldExtend then
        mergeGo minD maxD ⟨cur.start, s.«end», cur.text ++ " " ++ text⟩ rest
      else
        emitChunk cur ++ mergeGo minD maxD ⟨s.start, s.«end», text⟩ rest

/-- The merge loop before any chunk has been opened (empty-text segments are
skipped; the first kept segment opens the chunk). -/
def mergeStart (minD maxD : ℚ) : List Segment → List Segment
  | [] => []
  | s :: rest =>
    let text := pyStrip s.text
    if text = "" then mergeStart minD maxD rest
    else mergeGo minD maxD ⟨s.start, s.«end», text⟩ rest

/-- YouTubeProcessor.merge_short_segments (the source's defaults are
min_duration 8.0 and max_duration 20.0, supplied by the caller here). -/
def merge_short_segments (minD maxD : ℚ) (segments : List Segment) : List Segment :=
  mergeStart minD maxD segments

/-! ## Segment cleanup and the normalisation pipeline
(YouTubeProcessor.process, segment-processing block) -/

/-- Timing estimate for a repaired (0,0) segment: max(2.0, 0.1 per character
of the raw text). -/
def estimatedDuration (rawText : String) : ℚ :=
  max 2 ((rawText.length : ℚ) * (1/10))

/-- The cleanup loop: drop blank segments, repair (0,0) timestamps at input
index i > 0 by continuing from the last accepted segment's end. -/
def cleanupGo : List Segment → ℕ → List Segment → List Segment
  | acc, _, [] => acc
  | acc, i, s :: rest =>
    if pyStrip s.text = "" then cleanupGo acc (i + 1) rest
    else if s.start = 0 ∧ s.«end» = 0 ∧ i > 0 then
      let prevEnd := ((acc.getLast?).map fun t => t.«end»).getD 0
      cleanupGo (acc ++ [⟨prevEnd, prevEnd + estimatedDuration s.text, pyStrip s.text⟩])
        (i + 1) rest
    else
      cleanupGo (acc ++ [⟨s.start, s.«end», pyStrip s.text⟩]) (i + 1) rest

def cleanupSegments (segments : List Segment) : List Segment :=
  cleanupGo [] 0 segments

/-- The cleanup-and-merge pipeline of YouTubeProcessor.process: the average
duration is computed over the raw segments, cleanup always runs, and the
merge result is adopted only when the average was under 6 s and merging
shrank the list below 80% of its cleaned size. -/
def normalizePipeline (segments : List Segment) : List Segment :=
  match segments with
  | [] => []
  | _ =>
    let avgDuration := ((segments.map fun s => s.«end» - s.start).sum) / (segments.length : ℚ)
    let valid := cleanupSegments segments
    if avgDuration < 6 then
      let merged := merge_short_segments 8 20 valid
      if 0 < merged.length ∧ (merged.length : ℚ) < (valid.length : ℚ) * (4/5) then merged
      else valid
    else valid

/-! ## YouTubeProcessor._extract_single_clip -/

/-- The timing arithmetic of _extract_single_clip, up to the transcoder
invocation.  probe is the parsed ffprobe duration: some D when the probe
reports D (0 when its stdout is empty), none when probing raises and the
clamp is skipped.  The result is the (padded start, duration) pair handed to
the transcoder, or none when the function returns False without invoking it. -/
def extract_single_clip_args (probe : Option ℚ) (start «end» padding : ℚ) :
    Option (ℚ × ℚ) :=
  let paddedStart := max 0 (start - padding)
  let clamped :=
    match probe with
    | some d => if «end» + padding > d then d - 1/10 else «end» + padding
    | none => «end» + padding
  let duration := clamped - paddedStart
  if duration ≤ 0 then none else some (paddedStart, duration)

/-! ## YouTubeProcessor._verify_clip_contains_quote -/

/-- Probe outcomes observed while verifying one clip artifact: the parsed
container duration (none when ffprobe raises), the audio-stream probe and
the file-size probe (none when those raise and their checks are skipped). -/
structure VerifyEnv where
  durationProbe : Option ℚ
  audioProbe : Option Bool
  sizeProbe : Option ℕ

structure VerificationOutcome where
  likely_contains_quote : Bool
  confidence : String
  confidence_score : ℚ

/-- The strategy prior weights of _verify_clip_contains_quote. -/
def strategy_confidence (name : String) : ℚ :=
  if name = "Exact timing" then 9/10
  else if name = "Small buffer" then 4/5
  else if name = "Medium buffer" then 3/5
  else if name = "Large buffer" then 2/5
  else if name = "Extended search" then 1/5
  else 1/10

def confidenceBucket (final : ℚ) (likely : Bool) : String :=
  if likely then (if final ≥ 4/5 then "high" else if final ≥ 3/5 then "medium" else "low")
  else "low"

/-- YouTubeProcessor._verify_clip_contains_quote: duration check (early
failure on an unprobeable or non-positive duration), optional audio and size
checks, then final confidence = strategy prior × fraction of passed checks,
passing at the 0.5 floor. -/
def verify_clip_contains_quote (env : VerifyEnv) (strategyName : String) :
    VerificationOutcome :=
  match env.durationProbe with
  | none => ⟨false, "low", 0⟩
  | some d =>
    if d > 0 then
      let checks : List Bool :=
        [decide (d ≥ 2)] ++
        (match env.audioProbe with | some b => [b] | none => []) ++
        (match env.sizeProbe with | some n => [decide (n > 100000)] | none => [])
      let base := strategy_confidence strategyName
      let finalConfidence :=
        if checks.length > 0 then base * ((checks.countP id : ℚ) / (checks.length : ℚ))
        else base
      let likely := decide (finalConfidence ≥ 1/2)
      ⟨likely, confidenceBucket finalConfidence likely, finalConfidence⟩
    else ⟨false, "low", 0⟩

/-! ## YouTubeProcessor.extract_clip_with_verification -/

structure Strategy where
  name : String
  start_offset : ℚ
  end_offset : ℚ
  extra_padding : ℚ

def strategies : List Strategy :=
  [⟨"Exact timing", 0, 0, 0⟩,
   ⟨"Small buffer", -2, 2, 1⟩,
   ⟨"Medium buffer", -5, 5, 2⟩,
   ⟨"Large buffer", -10, 10, 3⟩,
   ⟨"Extended search", -30, 30, 5⟩]

/-- Final outcome of the orchestrator.  The debug clip is identified by its
(start, end) span; debug_copied_to_output records the copy of the debug
artifact onto the requested output path. -/
structure ExtractionOutcome where
  success : Bool
  strategy : Option String
  adjusted_start : Option ℚ
  adjusted_end : Option ℚ
  confidence : Option String
  debug_clip : Option (ℚ × ℚ)
  debug_copied_to_output : Bool

/-- The strategy loop.  runExtract i s e p is the success of
_extract_single_clip for attempt i (the index also names the scratch path);
venv i is what the verifier's probes observe for that attempt.  A raised
exception inside an attempt is absorbed exactly like an extraction failure,
so it is folded into runExtract returning false. -/
def tryStrategies (runExtract : ℕ → ℚ → ℚ → ℚ → Bool) (venv : ℕ → VerifyEnv)
    (start «end» padding : ℚ) : ℕ → List Strategy → Option (String × ℚ × ℚ × String)
  | _, [] => none
  | i, st :: rest =>
    let adjustedStart := max 0 (start + st.start_offset)
    let adjustedEnd := «end» + st.end_offset
    let totalPadding := padding + st.extra_padding
    if runExtract i adjustedStart adjustedEnd totalPadding then
      let v := verify_clip_contains_quote (venv i) st.name
      if v.likely_contains_quote then some (st.name, adjustedStart, adjustedEnd, v.confidence)
      else tryStrategies runExtract venv start «end» padding (i + 1) rest
    else tryStrategies runExtract venv start «end» padding (i + 1) rest

/-- YouTubeProcessor.extract_clip_with_verification: try the five strategies
in order; once exhausted, perform the single unverified debug extraction
over (max(0, start-30), end+30) with padding 0 and, when it succeeds, copy
it to the output path. -/
def extract_clip_with_verification (runExtract : ℕ → ℚ → ℚ → ℚ → Bool)
    (venv : ℕ → VerifyEnv) (start «end» padding : ℚ) : ExtractionOutcome :=
  match tryStrategies runExtract venv start «end» padding 0 strategies with
  | some (name, aS, aE, conf) => ⟨true, some name, some aS, some aE, some conf, none, false⟩
  | none =>
    let debugStart := max 0 (start - 30)
    let debugEnd := «end» + 30
    let ok := runExtract strategies.length debugStart debugEnd 0
    ⟨false, none, none, none, none, if ok then some (debugStart, debugEnd) else none, ok⟩

/-! ## main.process_clip_request -/

structure ClipResult where
  status : String
  start_time : ℚ
  end_time : ℚ
  used_debug_clip : Bool
  verification_strategy : Option String
  verification_confidence : Option String
  quote_snippet : Option String

def errRequiredFiles : String := "Required files not found."
def errNoValidSegments : String :=
  "No segments with valid timestamps found. The segments file may be corrupted."
def errQuoteNotFound : String := "Quote not found in transcript."
def errExtractionFailed : String := "Clip extraction and verification failed."

/-- main.process_clip_request.  filesPresent is the conjunction of the
segments-file and video-file existence checks; segments is the parsed
segments file; the extraction oracles are threaded to the orchestrator.
RuntimeError raises are modelled as Except.error with the raised message;
the quote matching goes through the exception-aware matcher, whose uncaught
ZeroDivisionError process_clip_request does not catch and therefore also
surfaces to the caller (the script-level handler reports str(e)). -/
def process_clip_request (filesPresent : Bool) (segments : List Segment)
    (quote : String) (clipPadding : ℚ) (runExtract : ℕ → ℚ → ℚ → ℚ → Bool)
    (venv : ℕ → VerifyEnv) : Except String ClipResult :=
  if ¬filesPresent then .error errRequiredFiles
  else
    let validSegments := segments.filter fun s => decide (s.start > 0) || decide (s.«end» > 0)
    if validSegments = [] then .error errNoValidSegments
    else
      match find_quote_timestamps_exc segments quote 20 (13/20) 2 with
      | .error e => .error e
      | .ok none => .error errQuoteNotFound
      | .ok (some (start, «end», snippet)) =>
        let r := extract_clip_with_verification runExtract venv start «end» clipPadding
        if r.success then
          .ok ⟨"complete", r.adjusted_start.getD start, r.adjusted_end.getD «end», false,
            r.strategy, r.confidence, if snippet = "" then none else some snippet⟩
        else
          match r.debug_clip with
          | some _ => .ok ⟨"complete", start - 30, «end» + 30, true, none, none,
              if snippet = "" then none else some snippet⟩
          | none => .error errExtractionFailed

/-! ## Concrete inputs used by the witnesses and counterexamples -/

/-- The segment list of the repository's own test
test_find_quote_timestamps.test_exact_match_across_segments. -/
def segsC1 : List Segment :=
  [⟨0, 1, "The quick brown fox"⟩,
   ⟨1, 2, "jumps over the lazy dog"⟩,
   ⟨2, 3, "and runs away"⟩]

def quoteC1 : String := "quick brown fox jumps over the lazy dog"

/-- Input whose cleanup drops a long blank segment, pulling the average
duration below the merge threshold only on the second pipeline pass. -/
def segsC6 : List Segment := [⟨0, 100, " "⟩, ⟨100, 101, "a"⟩, ⟨101, 102, "b"⟩]

/-- Segments whose second entry has non-blank text that normalises to zero
words: scoring its size-one window divides by a zero word count. -/
def segsCrash : List Segment := [⟨1, 2, "ok words"⟩, ⟨2, 3, "!!!"⟩]

/-- An oracle under which every strategy extraction fails and only the debug
extraction (attempt index 5) succeeds. -/
def onlyDebugExtract : ℕ → ℚ → ℚ → ℚ → Bool := fun i _ _ _ => i == 5

/-- A probe environment in which nothing is observable. -/
def blindEnv : ℕ → VerifyEnv := fun _ => ⟨none, none, none⟩

/-- A probe environment in which every heuristic check passes. -/
def goodEnv : ℕ → VerifyEnv := fun _ => ⟨some 5, some true, some 200000⟩

/-- A small chronologically ordered transcript used by the c10 witness. -/
def segsC10 : List Segment := [⟨0, 2, "hello"⟩, ⟨2, 4, "world"⟩]

/-- One strategy attempt of the orchestrator passes when its extraction
succeeds and the verifier accepts the artifact. -/
def attemptPasses (runExtract : ℕ → ℚ → ℚ → ℚ → Bool) (venv : ℕ → VerifyEnv)
    (start «end» padding : ℚ) (i : ℕ) (st : Strategy) : Bool :=
  runExtract i (max 0 (start + st.start_offset)) («end» + st.end_offset)
      (padding + st.extra_padding) &&
  (verify_clip_contains_quote (venv i) st.name).likely_contains_quote

end Mca

namespace Mca

set_option maxRecDepth 100000
set_option maxHeartbeats 4000000

/-! ## Theorems -/

/-- Claim C1.  On the repository's own test input (the three-segment fox
transcript and the full quote), find_quote_timestamps with its default
configuration returns start 0.0 — but end 4.0, not the claimed 2.0: the raw
window end 2.0 is always extended by the 2.0 s default context padding.  The
returned snippet does contain the full phrase.  This contradicts the
repository's own test, which asserts end == 2.0 on exactly this input. -/
theorem c1_default_search_pads_end :
    main_find_quote_timestamps segsC1 quoteC1 20 (13/20) 2 =
      some (0, 4, "The quick brown fox jumps over the lazy dog") ∧
    containsSub quoteC1.data "the quick brown fox jumps over the lazy dog".data = true ∧
    (4 : ℚ) ≠ 2 := by
  refine ⟨by decide, by decide, by norm_num⟩

/-- Claim C9.  The result of find_quote_timestamps is independent of its
window and threshold parameters: the processor method forwards window as the
(unread) max_window argument of find_best_match and drops threshold, so any
two parameter choices give identical results. -/
theorem c9_window_threshold_independent :
    ∀ (segments : List Segment) (quote : String) (w1 w2 : ℕ) (t1 t2 : ℚ)
      (contextPadding : ℚ),
      main_find_quote_timestamps segments quote w1 t1 contextPadding =
        main_find_quote_timestamps segments quote w2 t2 contextPadding :=
  fun _ _ _ _ _ _ _ => rfl

/-- Claim C4.  On acceptance the matcher pads the end by the context padding
unconditionally, pads the start only when the raw start exceeds the padding
(leaving it unpadded otherwise), and never returns a negative start; every
accepted result of the scored search path arises from this padding step. -/
theorem c4_context_padding :
    (∀ rawStart rawEnd p : ℚ, 0 ≤ rawStart →
      (applyContextPadding rawStart rawEnd p).2 = rawEnd + p ∧
      (p < rawStart → (applyContextPadding rawStart rawEnd p).1 = rawStart - p) ∧
      (rawStart ≤ p → (applyContextPadding rawStart rawEnd p).1 = rawStart) ∧
      0 ≤ (applyContextPadding rawStart rawEnd p).1) ∧
    (∀ (segments : List Segment) (quote : String) (maxWindow : ℕ)
      (contextPadding a b : ℚ) (text : String),
      2 ≤ (normWords quote).length →
      find_best_match segments quote maxWindow contextPadding = some (a, b, text) →
      ∃ rawStart rawEnd, (a, b) = applyContextPadding rawStart rawEnd contextPadding) := by
  constructor
  · intro rawStart rawEnd p h0
    unfold applyContextPadding
    refine ⟨rfl, ?_, ?_, ?_⟩
    · intro hlt
      simp only [if_pos hlt]
      exact max_eq_right (by linarith)
    · intro hle
      simp only [if_neg (not_lt.mpr hle)]
    · dsimp only
      split
      · exact le_max_left 0 _
      · exact h0
  · intro segments quote maxWindow contextPadding a b text hq hfind
    unfold find_best_match at hfind
    split at hfind
    · exact absurd hfind (by simp)
    · dsimp only at hfind
      rw [if_neg (by omega : ¬ (normWords quote).length < 2)] at hfind
      split at hfind
      · split at hfind
        · rename_i rs re tx heq
          simp only [Option.some.injEq, Prod.mk.injEq] at hfind
          refine ⟨rs, re, ?_⟩
          rw [← hfind.1, ← hfind.2.1]
        · exact absurd hfind (by simp)
      · exact absurd hfind (by simp)

/-- Witness for c4_context_padding at concrete inputs. -/
theorem c4_context_padding_witness :
    ((applyContextPadding 5 7 2).2 = 7 + 2 ∧
      ((2 : ℚ) < 5 → (applyContextPadding 5 7 2).1 = 5 - 2) ∧
      ((5 : ℚ) ≤ 2 → (applyContextPadding 5 7 2).1 = 5) ∧
      0 ≤ (applyContextPadding 5 7 2).1) ∧
    (∃ rawStart rawEnd, ((1 : ℚ), (4 : ℚ)) = applyContextPadding rawStart rawEnd 2) :=
  ⟨c4_context_padding.1 5 7 2 (by norm_num),
   c4_context_padding.2 [⟨1, 2, "alpha beta"⟩] "alpha beta" 20 2 1 4 "alpha beta"
     (by decide) (by decide)⟩

/-- Claim C3 counterexample.  With probed duration D = 10, request
start 2, end 9, padding 1: the padded end is exactly D, which is not clamped
(the clamp fires only when the padded end strictly exceeds D), and the
transcoder is invoked with padded end 1 + 9 = 10 > D − 0.1. -/
theorem c3_counterexample :
    extract_single_clip_args (some 10) 2 9 1 = some (1, 9) ∧
    ¬ ((1 : ℚ) + 9 ≤ 10 - 1/10) := by
  refine ⟨by decide, by norm_num⟩

/-- Claim C3 (amended).  For every probed duration D the extractor never
invokes the transcoder with a padded end beyond D itself (the clamp to
D − 0.1 fires only when the padded end would strictly exceed D), the
invoked duration is positive, and whenever the computed padded duration is
non-positive it returns failure without invoking the transcoder. -/
theorem c3_end_clamped_to_duration :
    ∀ D start «end» padding : ℚ,
      (∀ ps dur, extract_single_clip_args (some D) start «end» padding = some (ps, dur) →
        ps + dur ≤ D ∧ 0 < dur) ∧
      ((if «end» + padding > D then D - 1/10 else «end» + padding) -
          max 0 (start - padding) ≤ 0 →
        extract_single_clip_args (some D) start «end» padding = none) := by
  intro D start «end» padding
  constructor
  · intro ps dur h
    unfold extract_single_clip_args at h
    dsimp only at h
    split at h
    · rename_i hgt
      split at h
      · exact absurd h (by simp)
      · rename_i hpos
        push_neg at hpos
        simp only [Option.some.injEq, Prod.mk.injEq] at h
        obtain ⟨hps, hdur⟩ := h
        subst hps
        subst hdur
        exact ⟨by linarith, hpos⟩
    · rename_i hng
      push_neg at hng
      split at h
      · exact absurd h (by simp)
      · rename_i hpos
        push_neg at hpos
        simp only [Option.some.injEq, Prod.mk.injEq] at h
        obtain ⟨hps, hdur⟩ := h
        subst hps
        subst hdur
        exact ⟨by linarith, hpos⟩
  · intro h
    unfold extract_single_clip_args
    dsimp only
    split
    · rename_i hgt
      rw [if_pos (by rw [if_pos hgt] at h; exact h)]
    · rename_i hng
      rw [if_pos (by rw [if_neg hng] at h; exact h)]

/-- Witness for c3_end_clamped_to_duration at concrete inputs. -/
theorem c3_end_clamped_to_duration_witness :
    ((1 : ℚ) + 9 ≤ 10 ∧ (0 : ℚ) < 9) ∧
    extract_single_clip_args (some 10) 40 50 0 = none :=
  ⟨(c3_end_clamped_to_duration 10 2 9 1).1 1 9 (by decide),
   (c3_end_clamped_to_duration 10 40 50 0).2 (by norm_num)⟩

/-- Claim C2 counterexample.  Two caller-visible failures outside the
claim's three cases: with both required files present but every segment
carrying (0, 0) timestamps, process_clip_request raises the fourth message
"No segments with valid timestamps found. The segments file may be
corrupted."; and on segsCrash (a positive-timestamp transcript whose second
segment's text "!!!" normalises to zero words) the scoring loop's
length-ratio computation divides by zero, an exception process_clip_request
does not catch, so the caller sees "division by zero" — a fifth failure. -/
theorem c2_counterexample :
    process_clip_request true [⟨0, 0, "hello"⟩] "x" 1
        (fun _ _ _ _ => false) blindEnv = .error errNoValidSegments ∧
    process_clip_request true segsCrash "alpha beta" 1
        (fun _ _ _ _ => false) blindEnv = .error errDivisionByZero ∧
    errNoValidSegments ≠ errRequiredFiles ∧
    errNoValidSegments ≠ errQuoteNotFound ∧
    errNoValidSegments ≠ errExtractionFailed ∧
    errDivisionByZero ≠ errRequiredFiles ∧
    errDivisionByZero ≠ errQuoteNotFound ∧
    errDivisionByZero ≠ errExtractionFailed := by
  refine ⟨rfl, rfl, by decide, by decide, by decide, by decide, by decide, by decide⟩

/-- Claim C5 counterexample.  When the target start is 10 s (closer to the
recording head than 30 s) and all five strategies fail, the debug extraction
spans max(0, start − 30) = 0, not the claimed start − 30 = −20. -/
theorem c5_counterexample :
    (extract_clip_with_verification onlyDebugExtract blindEnv 10 20 1).debug_clip =
      some (0, 50) ∧
    (0 : ℚ) ≠ 10 - 30 := by
  refine ⟨by decide, by norm_num⟩

/-- Claim C6 counterexample.  The cleanup-and-merge pipeline is not
idempotent: on segsC6 the first pass only drops the blank 100 s segment
(the raw average duration 34 s suppresses merging), while the second pass
sees average 1 s and merges the two remaining one-second segments. -/
theorem c6_counterexample :
    normalizePipeline (normalizePipeline segsC6) ≠ normalizePipeline segsC6 := by
  decide

/-- Helper: the scoring loop raises only the ZeroDivisionError message. -/
theorem scoreLoopExc_error_msg (quote : String) :
    ∀ (ws : List (List Segment)) (st : BestState) (e : String),
      scoreLoopExc quote st ws = .error e → e = errDivisionByZero := by
  intro ws
  induction ws with
  | nil =>
    intro st e h
    exact absurd h (by simp [scoreLoopExc])
  | cons w ws ih =>
    intro st e h
    unfold scoreLoopExc at h
    dsimp only at h
    split at h
    · exact ih st e h
    · split at h
      · injection h with h
        exact h.symm
      · exact ih _ e h

/-- Helper: when the scoring loop completes without raising, it computes
exactly the pure candidate fold of find_best_match. -/
theorem scoreLoopExc_ok (quote : String) :
    ∀ (ws : List (List Segment)) (st st2 : BestState),
      scoreLoopExc quote st ws = .ok st2 →
      st2 = ws.foldl (considerWindow quote) st := by
  intro ws
  induction ws with
  | nil =>
    intro st st2 h
    injection h with h
    exact h.symm
  | cons w ws ih =>
    intro st st2 h
    unfold scoreLoopExc at h
    dsimp only at h
    split at h
    · rename_i hblank
      rw [List.foldl_cons, show considerWindow quote st w = st from by
        simp [considerWindow, hblank]]
      exact ih st st2 h
    · split at h
      · exact absurd h (by simp)
      · rw [List.foldl_cons]
        exact ih _ st2 h

/-- Helper: the exception-aware matcher refines the pure one — whenever it
completes, its value is find_best_match's. -/
theorem find_best_match_exc_ok_agrees (segments : List Segment) (quote : String)
    (maxWindow : ℕ) (contextPadding : ℚ) (opt : Option (ℚ × ℚ × String))
    (h : find_best_match_exc segments quote maxWindow contextPadding = .ok opt) :
    opt = find_best_match segments quote maxWindow contextPadding := by
  unfold find_best_match_exc at h
  unfold find_best_match
  split at h
  · rename_i hc
    rw [if_pos hc]
    injection h with h
    exact h.symm
  · rename_i hc
    rw [if_neg hc]
    dsimp only at h ⊢
    split at h
    · rename_i hshort
      rw [if_pos hshort]
      injection h with h
      exact h.symm
    · rename_i hshort
      rw [if_neg hshort]
      split at h
      · exact absurd h (by simp)
      · rename_i st heq
        rw [← scoreLoopExc_ok quote (candidateWindows segments) ⟨0, none⟩ st heq]
        injection h with h
        exact h.symm

/-- Helper: the exception-aware matcher raises only the ZeroDivisionError
message. -/
theorem find_quote_timestamps_exc_error (segments : List Segment) (quote : String)
    (window : ℕ) (threshold : ℚ) (contextPadding : ℚ) (e : String)
    (h : find_quote_timestamps_exc segments quote window threshold contextPadding =
      .error e) : e = errDivisionByZero := by
  unfold find_quote_timestamps_exc find_best_match_exc at h
  split at h
  · exact absurd h (by simp)
  · dsimp only at h
    split at h
    · exact absurd h (by simp)
    · split at h
      · rename_i e2 heq
        injection h with h
        rw [← h]
        exact scoreLoopExc_error_msg quote (candidateWindows segments) ⟨0, none⟩ e2 heq
      · exact absurd h (by simp)

/-- Claim C2 (amended).  process_clip_request surfaces a caller-visible
failure in exactly five cases: the required files are absent, every loaded
segment has non-positive start and end timestamps, a scored candidate
window's text is non-blank but normalises to zero words (an uncaught
ZeroDivisionError, surfaced as "division by zero"), the quote scores below
threshold, or all strategies and the debug extraction fail; any error it
raises carries one of these five messages, so every other failure during
extraction or verification is absorbed and a result is still returned. -/
theorem c2_five_failure_messages (filesPresent : Bool) (segments : List Segment)
    (quote : String) (clipPadding : ℚ) (runExtract : ℕ → ℚ → ℚ → ℚ → Bool)
    (venv : ℕ → VerifyEnv) (m : String)
    (h : process_clip_request filesPresent segments quote clipPadding runExtract venv =
      .error m) :
    m = errRequiredFiles ∨ m = errNoValidSegments ∨ m = errDivisionByZero ∨
      m = errQuoteNotFound ∨ m = errExtractionFailed := by
  simp only [process_clip_request] at h
  by_cases hfp : ¬filesPresent = true
  · rw [if_pos hfp] at h
    injection h with h
    exact Or.inl h.symm
  · rw [if_neg hfp] at h
    by_cases hvs :
        List.filter (fun s => decide (s.start > 0) || decide (s.«end» > 0)) segments = []
    · rw [if_pos hvs] at h
      injection h with h
      exact Or.inr (Or.inl h.symm)
    · rw [if_neg hvs] at h
      cases hfind : find_quote_timestamps_exc segments quote 20 (13/20) 2 with
      | error e =>
        rw [hfind] at h
        dsimp only at h
        injection h with h
        rw [← h]
        exact Or.inr (Or.inr (Or.inl
          (find_quote_timestamps_exc_error segments quote 20 (13/20) 2 e hfind)))
      | ok opt =>
        cases opt with
        | none =>
          rw [hfind] at h
          dsimp only at h
          injection h with h
          exact Or.inr (Or.inr (Or.inr (Or.inl h.symm)))
        | some trip =>
          obtain ⟨s, e, sn⟩ := trip
          rw [hfind] at h
          dsimp only at h
          by_cases hsucc :
              (extract_clip_with_verification runExtract venv s e clipPadding).success = true
          · rw [if_pos hsucc] at h
            exact absurd h (by simp)
          · rw [if_neg hsucc] at h
            cases hdbg :
                (extract_clip_with_verification runExtract venv s e clipPadding).debug_clip with
            | some v =>
              rw [hdbg] at h
              dsimp only at h
              exact absurd h (by simp)
            | none =>
              rw [hdbg] at h
              dsimp only at h
              injection h with h
              exact Or.inr (Or.inr (Or.inr (Or.inr h.symm)))

/-- Witness for c2_five_failure_messages with both files absent. -/
theorem c2_five_failure_messages_witness :
    errRequiredFiles = errRequiredFiles ∨ errRequiredFiles = errNoValidSegments ∨
      errRequiredFiles = errDivisionByZero ∨ errRequiredFiles = errQuoteNotFound ∨
      errRequiredFiles = errExtractionFailed :=
  c2_five_failure_messages false [] "" 0 (fun _ _ _ _ => false) blindEnv
    errRequiredFiles rfl

/-- Helper: a strategy list on which every attempt fails makes the strategy
loop return none. -/
theorem tryStrategies_none (runExtract : ℕ → ℚ → ℚ → ℚ → Bool)
    (venv : ℕ → VerifyEnv) (start «end» padding : ℚ) :
    ∀ (l : List Strategy) (i0 : ℕ),
      (∀ k st, l[k]? = some st →
        attemptPasses runExtract venv start «end» padding (i0 + k) st = false) →
      tryStrategies runExtract venv start «end» padding i0 l = none := by
  intro l
  induction l with
  | nil => intro i0 _; rfl
  | cons st rest ih =>
    intro i0 H
    have h0 : attemptPasses runExtract venv start «end» padding (i0 + 0) st = false :=
      H 0 st (by simp)
    rw [Nat.add_zero] at h0
    have hrec : tryStrategies runExtract venv start «end» padding (i0 + 1) rest = none := by
      refine ih (i0 + 1) fun k st' hk => ?_
      have hidx : (i0 + 1) + k = i0 + (k + 1) := by omega
      rw [hidx]
      exact H (k + 1) st' (by simpa using hk)
    unfold tryStrategies
    cases hr : runExtract i0 (max 0 (start + st.start_offset)) («end» + st.end_offset)
        (padding + st.extra_padding) with
    | false => simpa [hr] using hrec
    | true =>
      have hv : (verify_clip_contains_quote (venv i0) st.name).likely_contains_quote =
          false := by
        rw [attemptPasses, hr] at h0
        simpa using h0
      simp [hr, hv, hrec]

/-- Claim C5 (amended).  When every one of the five strategies is exhausted
without a passing verification, the orchestrator performs one unverified
debug extraction spanning max(0, start − 30) to end + 30 — which equals the
claimed start − 30 only when the target start is at least 30 s in — and on
its success the artifact is copied to the output path and reported in a
success = false outcome; if the debug extraction also fails the outcome is
success = false with no artifact path. -/
theorem c5_exhaustion_debug_clip (runExtract : ℕ → ℚ → ℚ → ℚ → Bool)
    (venv : ℕ → VerifyEnv) (start «end» padding : ℚ)
    (H : ∀ i st, strategies[i]? = some st →
      attemptPasses runExtract venv start «end» padding i st = false) :
    (extract_clip_with_verification runExtract venv start «end» padding).success = false ∧
    (extract_clip_with_verification runExtract venv start «end» padding).debug_clip =
      (if runExtract 5 (max 0 (start - 30)) («end» + 30) 0
       then some (max 0 (start - 30), «end» + 30) else none) ∧
    (extract_clip_with_verification runExtract venv start «end» padding).debug_copied_to_output =
      runExtract 5 (max 0 (start - 30)) («end» + 30) 0 ∧
    (30 ≤ start → max 0 (start - 30) = start - 30) := by
  have hnone := tryStrategies_none runExtract venv start «end» padding strategies 0
    (fun k st hk => by simpa using H k st hk)
  unfold extract_clip_with_verification
  rw [hnone]
  dsimp only
  refine ⟨rfl, ?_, rfl, fun h30 => max_eq_right (by linarith)⟩
  cases hdbg : runExtract 5 (max 0 (start - 30)) («end» + 30) 0 <;>
    simp [strategies, hdbg]

/-- Witness for c5_exhaustion_debug_clip: every extraction (including the
debug one) fails. -/
theorem c5_exhaustion_debug_clip_witness :
    (extract_clip_with_verification (fun _ _ _ _ => false) blindEnv 100 120 1).success =
      false ∧
    (extract_clip_with_verification (fun _ _ _ _ => false) blindEnv 100 120 1).debug_clip =
      (if (fun (_ : ℕ) (_ _ _ : ℚ) => false) 5 (max 0 ((100 : ℚ) - 30)) ((120 : ℚ) + 30) 0
       then some (max 0 ((100 : ℚ) - 30), (120 : ℚ) + 30) else none) ∧
    (extract_clip_with_verification
        (fun _ _ _ _ => false) blindEnv 100 120 1).debug_copied_to_output =
      (fun (_ : ℕ) (_ _ _ : ℚ) => false) 5 (max 0 ((100 : ℚ) - 30)) ((120 : ℚ) + 30) 0 ∧
    ((30 : ℚ) ≤ 100 → max 0 ((100 : ℚ) - 30) = 100 - 30) :=
  c5_exhaustion_debug_clip (fun _ _ _ _ => false) blindEnv 100 120 1
    (fun i st _ => by simp [attemptPasses])

/-- Claim C7.  For quotes with at least two normalised words and candidates
with at least one, the adjusted candidate score is exactly
(0.3·sequence + 0.4·word-overlap + 0.3·keyword-match) · length-bonus with
word-overlap = 0.4·Jaccard + 0.6·(|intersection| / |quote word set|), and
the length bonus is always at least 1. -/
theorem c7_candidate_score_formula (quote text : String)
    (hq : 2 ≤ (normWords quote).length) (ht : 1 ≤ (normWords text).length) :
    adjusted_score quote text =
      (3/10 * sequence_similarity (normalize_text quote) (normalize_text text) +
       2/5 * (2/5 * (((wordSet quote ∩ wordSet text).card : ℚ) /
                     ((wordSet quote ∪ wordSet text).card : ℚ)) +
              3/5 * (((wordSet quote ∩ wordSet text).card : ℚ) /
                     ((wordSet quote).card : ℚ))) +
       3/10 * keyword_match_score quote text) * length_bonus quote text ∧
    1 ≤ length_bonus quote text := by
  have hwq : wordSet quote ≠ ∅ := by
    have hne : normWords quote ≠ [] := by
      intro hnil
      rw [hnil] at hq
      simp at hq
    simpa [wordSet, ← List.toFinset_eq_empty_iff] using hne
  have hwt : wordSet text ≠ ∅ := by
    have hne : normWords text ≠ [] := by
      intro hnil
      rw [hnil] at ht
      simp at ht
    simpa [wordSet, ← List.toFinset_eq_empty_iff] using hne
  have hwo : word_overlap_score quote text =
      2/5 * (((wordSet quote ∩ wordSet text).card : ℚ) /
             ((wordSet quote ∪ wordSet text).card : ℚ)) +
      3/5 * (((wordSet quote ∩ wordSet text).card : ℚ) /
             ((wordSet quote).card : ℚ)) := by
    unfold word_overlap_score
    rw [if_neg (by tauto)]
  constructor
  · unfold adjusted_score final_score calculate_all_scores
    dsimp only
    rw [hwo]
  · unfold length_bonus
    rw [if_pos (by omega : (normWords quote).length > 0)]
    dsimp only
    have hm : (0 : ℚ) ≤ max 0
        (min (((normWords text).length : ℚ) / ((normWords quote).length : ℚ))
             (((normWords quote).length : ℚ) / ((normWords text).length : ℚ)) - 1/2) :=
      le_max_left 0 _
    nlinarith [hm]

/-- Witness for c7_candidate_score_formula at a concrete quote/candidate. -/
theorem c7_candidate_score_formula_witness :
    adjusted_score "hello world extra" "hello world" =
      (3/10 * sequence_similarity (normalize_text "hello world extra")
          (normalize_text "hello world") +
       2/5 * (2/5 * (((wordSet "hello world extra" ∩ wordSet "hello world").card : ℚ) /
                     ((wordSet "hello world extra" ∪ wordSet "hello world").card : ℚ)) +
              3/5 * (((wordSet "hello world extra" ∩ wordSet "hello world").card : ℚ) /
                     ((wordSet "hello world extra").card : ℚ))) +
       3/10 * keyword_match_score "hello world extra" "hello world") *
        length_bonus "hello world extra" "hello world" ∧
    1 ≤ length_bonus "hello world extra" "hello world" :=
  c7_candidate_score_formula "hello world extra" "hello world" (by decide) (by decide)

/-- Helper: a prior weight of at most 2/5 caps the verifier confidence below
the 1/2 pass floor, whatever fraction of the checks passes. -/
theorem conf_lt_half {w : ℚ} (hw : w ≤ 2/5) (hw0 : 0 ≤ w) (bs : List Bool)
    (hbs : bs ≠ []) : w * ((bs.countP id : ℚ) / (bs.length : ℚ)) < 1/2 := by
  have hlen : (0 : ℚ) < (bs.length : ℚ) := by
    exact_mod_cast List.length_pos.mpr hbs
  have hcount : ((bs.countP id : ℕ) : ℚ) ≤ (bs.length : ℚ) := by
    exact_mod_cast List.countP_le_length id
  have hfrac : ((bs.countP id : ℕ) : ℚ) / (bs.length : ℚ) ≤ 1 :=
    (div_le_one hlen).mpr hcount
  have hfrac0 : (0 : ℚ) ≤ ((bs.countP id : ℕ) : ℚ) / (bs.length : ℚ) :=
    div_nonneg (by positivity) hlen.le
  have hmul : w * (((bs.countP id : ℕ) : ℚ) / (bs.length : ℚ)) ≤ w :=
    mul_le_of_le_one_right hw0 hfrac
  linarith

/-- Helper: any strategy with prior weight at most 2/5 can never pass
verification, whatever the probes report. -/
theorem verify_low_prior_never_passes (env : VerifyEnv) (name : String)
    (hname : strategy_confidence name ≤ 2/5) :
    (verify_clip_contains_quote env name).likely_contains_quote = false := by
  have hconf0 : 0 ≤ strategy_confidence name := by
    unfold strategy_confidence
    split_ifs <;> norm_num
  unfold verify_clip_contains_quote
  obtain ⟨dp, ap, sp⟩ := env
  cases dp with
  | none => rfl
  | some d =>
    dsimp only
    split
    · dsimp only
      rw [if_pos (by simp : 0 < (([decide (d ≥ 2)] ++
          (match ap with | some b => [b] | none => []) ++
          (match sp with | some n => [decide (n > 100000)] | none => [])) : List Bool).length)]
      refine decide_eq_false (not_le.mpr ?_)
      exact conf_lt_half hname hconf0 _ (by simp)
    · rfl

/-- Helper: a successful pass of the strategy loop reports the name of some
strategy in the list, at a position whose verification passed. -/
theorem tryStrategies_some_name (runExtract : ℕ → ℚ → ℚ → ℚ → Bool)
    (venv : ℕ → VerifyEnv) (start «end» padding : ℚ) :
    ∀ (l : List Strategy) (i0 : ℕ) (name : String) (a b : ℚ) (conf : String),
      tryStrategies runExtract venv start «end» padding i0 l = some (name, a, b, conf) →
      ∃ k st, l[k]? = some st ∧ name = st.name ∧
        (verify_clip_contains_quote (venv (i0 + k)) st.name).likely_contains_quote = true := by
  intro l
  induction l with
  | nil =>
    intro i0 name a b conf h
    exact absurd h (by simp [tryStrategies])
  | cons st rest ih =>
    intro i0 name a b conf h
    unfold tryStrategies at h
    dsimp only at h
    split at h
    · split at h
      · rename_i hver
        simp only [Option.some.injEq, Prod.mk.injEq] at h
        refine ⟨0, st, by simp, h.1.symm, ?_⟩
        rw [Nat.add_zero]
        exact hver
      · obtain ⟨k, st', hk, hn, hv⟩ := ih (i0 + 1) name a b conf h
        refine ⟨k + 1, st', by simpa using hk, hn, ?_⟩
        have : i0 + (k + 1) = (i0 + 1) + k := by omega
        rw [this]
        exact hv
    · obtain ⟨k, st', hk, hn, hv⟩ := ih (i0 + 1) name a b conf h
      refine ⟨k + 1, st', by simpa using hk, hn, ?_⟩
      have : i0 + (k + 1) = (i0 + 1) + k := by omega
      rw [this]
      exact hv

/-- Claim C8.  Verification under the "Large buffer" and "Extended search"
strategies never passes (their prior weights 0.4 and 0.2 cap the final
confidence strictly below the 0.5 floor), so a successful outcome of
extract_clip_with_verification can only report one of the first three
strategies. -/
theorem c8_weak_strategies_never_verify :
    (∀ env : VerifyEnv,
      (verify_clip_contains_quote env "Large buffer").likely_contains_quote = false ∧
      (verify_clip_contains_quote env "Extended search").likely_contains_quote = false) ∧
    (∀ (runExtract : ℕ → ℚ → ℚ → ℚ → Bool) (venv : ℕ → VerifyEnv)
      (start «end» padding : ℚ),
      (extract_clip_with_verification runExtract venv start «end» padding).success = true →
      (extract_clip_with_verification runExtract venv start «end» padding).strategy ∈
        [some "Exact timing", some "Small buffer", some "Medium buffer"]) := by
  have hlarge : ∀ env, (verify_clip_contains_quote env "Large buffer").likely_contains_quote
      = false :=
    fun env => verify_low_prior_never_passes env "Large buffer" (by decide)
  have hext : ∀ env, (verify_clip_contains_quote env "Extended search").likely_contains_quote
      = false :=
    fun env => verify_low_prior_never_passes env "Extended search" (by decide)
  refine ⟨fun env => ⟨hlarge env, hext env⟩, ?_⟩
  intro runExtract venv start «end» padding hsucc
  unfold extract_clip_with_verification at hsucc ⊢
  cases htry : tryStrategies runExtract venv start «end» padding 0 strategies with
  | none =>
    rw [htry] at hsucc
    exact absurd hsucc (by simp)
  | some v =>
    obtain ⟨name, a, b, c⟩ := v
    dsimp only
    obtain ⟨k, st, hk, hname, hver⟩ :=
      tryStrategies_some_name runExtract venv start «end» padding strategies 0 name a b c htry
    have hklt : k < 5 := by
      have hlen := (List.getElem?_eq_some.mp hk).1
      simpa [strategies] using hlen
    subst hname
    interval_cases k <;>
      (simp only [strategies, show (0:ℕ)+0 = 0 from rfl] at hk hver ⊢ <;>
       simp only [List.getElem?_cons_zero, List.getElem?_cons_succ,
         Option.some.injEq] at hk) <;>
      subst hk <;>
      first
        | decide
        | (rw [hlarge] at hver; exact absurd hver (by simp))
        | (rw [hext] at hver; exact absurd hver (by simp))

/-- Witness for c8_weak_strategies_never_verify: with an always-succeeding
extractor and fully passing probes the first strategy verifies, and the
reported strategy is among the first three. -/
theorem c8_weak_strategies_never_verify_witness :
    (extract_clip_with_verification (fun _ _ _ _ => true) goodEnv 0 5 1).strategy ∈
      [some "Exact timing", some "Small buffer", some "Medium buffer"] :=
  c8_weak_strategies_never_verify.2 (fun _ _ _ _ => true) goodEnv 0 5 1 (by decide)

/-- Helper: stripping whitespace from both ends is idempotent. -/
theorem stripChars_idem (l : List Char) : stripChars (stripChars l) = stripChars l := by
  have hpre : List.rdropWhile isSpc (List.dropWhile isSpc l) <+: List.dropWhile isSpc l :=
    List.rdropWhile_prefix _ _
  have hdropB : List.dropWhile isSpc (List.rdropWhile isSpc (List.dropWhile isSpc l)) =
      List.rdropWhile isSpc (List.dropWhile isSpc l) := by
    rw [List.dropWhile_eq_self_iff]
    intro hl
    have hlA : 0 < (List.dropWhile isSpc l).length := lt_of_lt_of_le hl hpre.length_le
    have hget : (List.rdropWhile isSpc (List.dropWhile isSpc l)).get ⟨0, hl⟩ =
        (List.dropWhile isSpc l).get ⟨0, hlA⟩ := by
      simpa [List.get_eq_getElem] using hpre.getElem hl
    rw [hget]
    exact List.dropWhile_get_zero_not isSpc l hlA
  show List.rdropWhile isSpc
      (List.dropWhile isSpc (List.rdropWhile isSpc (List.dropWhile isSpc l))) = _
  rw [hdropB, List.rdropWhile_idempotent]
  rfl

/-- Helper: Python str.strip is idempotent. -/
theorem pyStrip_idem (s : String) : pyStrip (pyStrip s) = pyStrip s :=
  congrArg String.mk (stripChars_idem s.data)

/-- Helper: the cleanup loop appends, after its accumulator, only segments
whose text is already stripped and non-blank, and — when the running input
index is positive — whose timestamps are not the degenerate (0, 0) pair. -/
theorem cleanupGo_spec (segs : List Segment) : ∀ (i : ℕ) (acc : List Segment),
    ∃ suf, cleanupGo acc i segs = acc ++ suf ∧
      (∀ s ∈ suf, pyStrip s.text = s.text ∧ s.text ≠ "") ∧
      (1 ≤ i → ∀ s ∈ suf, ¬(s.start = 0 ∧ s.«end» = 0)) := by
  induction segs with
  | nil =>
    intro i acc
    exact ⟨[], by simp [cleanupGo], by simp, by simp⟩
  | cons s rest ih =>
    intro i acc
    by_cases hskip : pyStrip s.text = ""
    · obtain ⟨suf, heq, htext, hzz⟩ := ih (i + 1) acc
      refine ⟨suf, ?_, htext, fun _ => hzz (by omega)⟩
      rw [show cleanupGo acc i (s :: rest) = cleanupGo acc (i + 1) rest from by
        simp [cleanupGo, hskip]]
      exact heq
    · by_cases hzzc : s.start = 0 ∧ s.«end» = 0 ∧ i > 0
      · obtain ⟨suf, heq, htext, hzz⟩ := ih (i + 1)
          (acc ++ [⟨((acc.getLast?).map fun t => t.«end»).getD 0,
            (((acc.getLast?).map fun t => t.«end»).getD 0) + estimatedDuration s.text,
            pyStrip s.text⟩])
        refine ⟨⟨((acc.getLast?).map fun t => t.«end»).getD 0,
            (((acc.getLast?).map fun t => t.«end»).getD 0) + estimatedDuration s.text,
            pyStrip s.text⟩ :: suf, ?_, ?_, ?_⟩
        · rw [show cleanupGo acc i (s :: rest) = cleanupGo
              (acc ++ [⟨((acc.getLast?).map fun t => t.«end»).getD 0,
                (((acc.getLast?).map fun t => t.«end»).getD 0) + estimatedDuration s.text,
                pyStrip s.text⟩]) (i + 1) rest from by
            simp only [cleanupGo, if_neg hskip, if_pos hzzc]]
          rw [heq, List.append_assoc, List.singleton_append]
        · intro t ht
          rcases List.mem_cons.mp ht with hteq | hmem
          · subst hteq
            exact ⟨pyStrip_idem s.text, hskip⟩
          · exact htext t hmem
        · intro _ t ht
          rcases List.mem_cons.mp ht with hteq | hmem
          · subst hteq
            rintro ⟨h1, h2⟩
            dsimp only at h1 h2
            rw [h1] at h2
            have hest : (2 : ℚ) ≤ estimatedDuration s.text := le_max_left _ _
            rw [zero_add] at h2
            linarith
          · exact hzz (by omega) t hmem
      · obtain ⟨suf, heq, htext, hzz⟩ := ih (i + 1)
          (acc ++ [⟨s.start, s.«end», pyStrip s.text⟩])
        refine ⟨⟨s.start, s.«end», pyStrip s.text⟩ :: suf, ?_, ?_, ?_⟩
        · rw [show cleanupGo acc i (s :: rest) = cleanupGo
              (acc ++ [⟨s.start, s.«end», pyStrip s.text⟩]) (i + 1) rest from by
            simp only [cleanupGo, if_neg hskip, if_neg hzzc]]
          rw [heq, List.append_assoc, List.singleton_append]
        · intro t ht
          rcases List.mem_cons.mp ht with hteq | hmem
          · subst hteq
            exact ⟨pyStrip_idem s.text, hskip⟩
          · exact htext t hmem
        · intro hi t ht
          rcases List.mem_cons.mp ht with hteq | hmem
          · subst hteq
            rintro ⟨h1, h2⟩
            exact hzzc ⟨h1, h2, by omega⟩
          · exact hzz (by omega) t hmem

/-- Helper: on a list of already-clean segments processed from a positive
input index, the cleanup loop is a plain append. -/
theorem cleanupGo_clean_id (l : List Segment) : ∀ (i : ℕ) (acc : List Segment), 1 ≤ i →
    (∀ s ∈ l, (pyStrip s.text = s.text ∧ s.text ≠ "") ∧ ¬(s.start = 0 ∧ s.«end» = 0)) →
    cleanupGo acc i l = acc ++ l := by
  induction l with
  | nil =>
    intro i acc _ _
    simp [cleanupGo]
  | cons t rest ih =>
    intro i acc hi hcl
    obtain ⟨⟨htext, hne⟩, hzz⟩ := hcl t (by simp)
    have hskip : ¬ pyStrip t.text = "" := by rw [htext]; exact hne
    have hzzc : ¬ (t.start = 0 ∧ t.«end» = 0 ∧ i > 0) := fun ⟨h1, h2, _⟩ => hzz ⟨h1, h2⟩
    rw [show cleanupGo acc i (t :: rest) = cleanupGo
        (acc ++ [⟨t.start, t.«end», pyStrip t.text⟩]) (i + 1) rest from by
      simp only [cleanupGo, if_neg hskip, if_neg hzzc]]
    rw [htext]
    have hid := ih (i + 1) (acc ++ [⟨t.start, t.«end», t.text⟩]) (by omega)
      (fun s hs => hcl s (by simp [hs]))
    rw [hid]
    simp

/-- Claim C6 (amended).  The full cleanup-and-merge pipeline is not
idempotent (see the counterexample), but its cleanup stage is: re-running
the cleanup pass on its own output returns it unchanged. -/
theorem c6_cleanup_idempotent (segments : List Segment) :
    cleanupSegments (cleanupSegments segments) = cleanupSegments segments := by
  cases segments with
  | nil => rfl
  | cons s rest =>
    unfold cleanupSegments
    by_cases hskip : pyStrip s.text = ""
    · rw [show cleanupGo [] 0 (s :: rest) = cleanupGo [] 1 rest from by
        simp [cleanupGo, hskip]]
      obtain ⟨suf, heq, htext, hzz⟩ := cleanupGo_spec rest 1 []
      rw [heq, List.nil_append]
      cases suf with
      | nil => rfl
      | cons t suf2 =>
        obtain ⟨httext, htne⟩ := htext t (by simp)
        obtain ⟨a, b, c⟩ := t
        dsimp only at httext htne
        have hcne : ¬ pyStrip c = "" := by rw [httext]; exact htne
        rw [show cleanupGo [] 0 (⟨a, b, c⟩ :: suf2) = cleanupGo [⟨a, b, pyStrip c⟩] 1 suf2
            from by simp [cleanupGo, hcne]]
        rw [show pyStrip c = c from httext]
        have hid := cleanupGo_clean_id suf2 1 [⟨a, b, c⟩] (by omega)
          (fun x hx => ⟨htext x (by simp [hx]), hzz (by omega) x (by simp [hx])⟩)
        rw [hid]
        simp
    · rw [show cleanupGo [] 0 (s :: rest) = cleanupGo [⟨s.start, s.«end», pyStrip s.text⟩] 1 rest
          from by simp [cleanupGo, hskip]]
      obtain ⟨suf, heq, htext, hzz⟩ := cleanupGo_spec rest 1 [⟨s.start, s.«end», pyStrip s.text⟩]
      rw [heq, List.singleton_append]
      have hppe : ¬ pyStrip (pyStrip s.text) = "" := by rw [pyStrip_idem]; exact hskip
      rw [show cleanupGo [] 0 (⟨s.start, s.«end», pyStrip s.text⟩ :: suf) =
          cleanupGo [⟨s.start, s.«end», pyStrip (pyStrip s.text)⟩] 1 suf from by
        simp [cleanupGo, hppe]]
      rw [pyStrip_idem]
      have hid := cleanupGo_clean_id suf 1 [⟨s.start, s.«end», pyStrip s.text⟩] (by omega)
        (fun x hx => ⟨htext x hx, hzz (by omega) x hx⟩)
      rw [hid]
      simp

/-- Helper: every element emitted by emitChunk carries the chunk's bounds
and lasts at least one second. -/
theorem emitChunk_mem {cur : Chunk} {t : Segment} (ht : t ∈ emitChunk cur) :
    t.start = cur.start ∧ t.«end» = cur.«end» ∧ 1 ≤ cur.«end» - cur.start := by
  unfold emitChunk at ht
  split at ht
  · rename_i hd
    rw [List.mem_singleton] at ht
    subst ht
    exact ⟨rfl, rfl, hd⟩
  · exact absurd ht (by simp)

/-- Helper: every chunk emitted by the merge loop lasts at least one second. -/
theorem mergeGo_duration (minD maxD : ℚ) :
    ∀ (rest : List Segment) (cur : Chunk) (t : Segment),
      t ∈ mergeGo minD maxD cur rest → 1 ≤ t.«end» - t.start := by
  intro rest
  induction rest with
  | nil =>
    intro cur t ht
    obtain ⟨h1, h2, h3⟩ := emitChunk_mem (by simpa [mergeGo] using ht)
    rw [h1, h2]
    exact h3
  | cons s rest ih =>
    intro cur t ht
    unfold mergeGo at ht
    dsimp only at ht
    split at ht
    · exact ih cur t ht
    · split at ht
      · exact ih _ t ht
      · rcases List.mem_append.mp ht with hemit | hrec
        · obtain ⟨h1, h2, h3⟩ := emitChunk_mem hemit
          rw [h1, h2]
          exact h3
        · exact ih _ t hrec

/-- Helper: every chunk's start is the start of the open chunk or of some
remaining segment, and likewise for its end. -/
theorem mergeGo_endpoints (minD maxD : ℚ) :
    ∀ (rest : List Segment) (cur : Chunk) (t : Segment),
      t ∈ mergeGo minD maxD cur rest →
      (t.start = cur.start ∨ ∃ s ∈ rest, t.start = s.start) ∧
      (t.«end» = cur.«end» ∨ ∃ s ∈ rest, t.«end» = s.«end») := by
  intro rest
  induction rest with
  | nil =>
    intro cur t ht
    obtain ⟨h1, h2, -⟩ := emitChunk_mem (by simpa [mergeGo] using ht)
    exact ⟨Or.inl h1, Or.inl h2⟩
  | cons s rest ih =>
    intro cur t ht
    unfold mergeGo at ht
    dsimp only at ht
    split at ht
    · obtain ⟨ha, hb⟩ := ih cur t ht
      refine ⟨?_, ?_⟩
      · rcases ha with h | ⟨u, hu, he⟩
        · exact Or.inl h
        · exact Or.inr ⟨u, by simp [hu], he⟩
      · rcases hb with h | ⟨u, hu, he⟩
        · exact Or.inl h
        · exact Or.inr ⟨u, by simp [hu], he⟩
    · split at ht
      · obtain ⟨ha, hb⟩ := ih _ t ht
        refine ⟨?_, ?_⟩
        · rcases ha with h | ⟨u, hu, he⟩
          · exact Or.inl h
          · exact Or.inr ⟨u, by simp [hu], he⟩
        · rcases hb with h | ⟨u, hu, he⟩
          · exact Or.inr ⟨s, by simp, h⟩
          · exact Or.inr ⟨u, by simp [hu], he⟩
      · rcases List.mem_append.mp ht with hemit | hrec
        · obtain ⟨h1, h2, -⟩ := emitChunk_mem hemit
          exact ⟨Or.inl h1, Or.inl h2⟩
        · obtain ⟨ha, hb⟩ := ih _ t hrec
          refine ⟨?_, ?_⟩
          · rcases ha with h | ⟨u, hu, he⟩
            · exact Or.inr ⟨s, by simp, h⟩
            · exact Or.inr ⟨u, by simp [hu], he⟩
          · rcases hb with h | ⟨u, hu, he⟩
            · exact Or.inr ⟨s, by simp, h⟩
            · exact Or.inr ⟨u, by simp [hu], he⟩

/-- Helper: on chronologically ordered input the merge loop emits ordered,
non-overlapping chunks, all starting no earlier than the open chunk. -/
theorem mergeGo_chain (minD maxD : ℚ) :
    ∀ (rest : List Segment) (cur : Chunk),
      cur.start ≤ cur.«end» →
      (∀ s ∈ rest.head?, cur.«end» ≤ s.start) →
      List.Chain' (fun a b : Segment => a.«end» ≤ b.start) rest →
      (∀ s ∈ rest, s.start ≤ s.«end») →
      List.Chain' (fun a b : Segment => a.«end» ≤ b.start) (mergeGo minD maxD cur rest) ∧
      ∀ t ∈ mergeGo minD maxD cur rest, cur.start ≤ t.start := by
  intro rest
  induction rest with
  | nil =>
    intro cur hc _ _ _
    rw [show mergeGo minD maxD cur [] = emitChunk cur from by simp [mergeGo]]
    constructor
    · unfold emitChunk
      split
      · exact List.chain'_singleton _
      · exact List.chain'_nil
    · intro t ht
      obtain ⟨h1, -, -⟩ := emitChunk_mem ht
      rw [h1]
  | cons s rest ih =>
    intro cur hc hlink hchain hwf
    have hcs : cur.«end» ≤ s.start := hlink s (by simp)
    have hss : s.start ≤ s.«end» := hwf s (by simp)
    obtain ⟨hhead, htail⟩ := List.chain'_cons'.mp hchain
    have hwf' : ∀ x ∈ rest, x.start ≤ x.«end» := fun x hx => hwf x (by simp [hx])
    unfold mergeGo
    dsimp only
    split
    · exact ih cur hc
        (fun y hy => le_trans (le_trans hcs hss) (hhead y hy)) htail hwf'
    · split
      · obtain ⟨hch, hst⟩ := ih ⟨cur.start, s.«end», cur.text ++ " " ++ pyStrip s.text⟩
          (by dsimp only; linarith) (fun y hy => hhead y hy) htail hwf'
        exact ⟨hch, fun t ht => hst t ht⟩
      · obtain ⟨hch, hst⟩ := ih ⟨s.start, s.«end», pyStrip s.text⟩
          hss (fun y hy => hhead y hy) htail hwf'
        constructor
        · rw [List.chain'_append]
          refine ⟨?_, hch, ?_⟩
          · unfold emitChunk
            split
            · exact List.chain'_singleton _
            · exact List.chain'_nil
          · intro x hx y hy
            obtain ⟨-, hxe, -⟩ := emitChunk_mem (List.mem_of_mem_getLast? hx)
            have hys : s.start ≤ y.start := hst y (List.mem_of_mem_head? hy)
            rw [hxe]
            exact le_trans hcs hys
        · intro t ht
          rcases List.mem_append.mp ht with hemit | hrec
          · obtain ⟨h1, -, -⟩ := emitChunk_mem hemit
            rw [h1]
          · exact le_trans (le_trans hc hcs) (hst t hrec)

/-- Helper: the invariants of merge_short_segments on ordered input, over
the leading skip phase. -/
theorem mergeStart_invariants (minD maxD : ℚ) :
    ∀ (segments : List Segment),
      (∀ s ∈ segments, s.start ≤ s.«end») →
      List.Chain' (fun a b : Segment => a.«end» ≤ b.start) segments →
      (∀ t ∈ mergeStart minD maxD segments, 1 ≤ t.«end» - t.start) ∧
      List.Chain' (fun a b : Segment => a.«end» ≤ b.start)
        (mergeStart minD maxD segments) ∧
      (∀ t ∈ mergeStart minD maxD segments,
        (∃ s ∈ segments, t.start = s.start) ∧ (∃ s ∈ segments, t.«end» = s.«end»)) := by
  intro segments
  induction segments with
  | nil =>
    intro _ _
    exact ⟨by simp [mergeStart], by simp [mergeStart], by simp [mergeStart]⟩
  | cons s rest ih =>
    intro hwf hord
    obtain ⟨hhead, htail⟩ := List.chain'_cons'.mp hord
    have hwf' : ∀ x ∈ rest, x.start ≤ x.«end» := fun x hx => hwf x (by simp [hx])
    unfold mergeStart
    dsimp only
    split
    · obtain ⟨h1, h2, h3⟩ := ih hwf' htail
      refine ⟨h1, h2, fun t ht => ?_⟩
      obtain ⟨⟨u, hu, hue⟩, ⟨v, hv, hve⟩⟩ := h3 t ht
      exact ⟨⟨u, by simp [hu], hue⟩, ⟨v, by simp [hv], hve⟩⟩
    · have hss : s.start ≤ s.«end» := hwf s (by simp)
      obtain ⟨hch, hst⟩ := mergeGo_chain minD maxD rest ⟨s.start, s.«end», pyStrip s.text⟩
        hss (fun y hy => hhead y hy) htail hwf'
      refine ⟨fun t ht => mergeGo_duration minD maxD rest _ t ht, hch, fun t ht => ?_⟩
      obtain ⟨ha, hb⟩ := mergeGo_endpoints minD maxD rest _ t ht
      refine ⟨?_, ?_⟩
      · rcases ha with h | ⟨u, hu, he⟩
        · exact ⟨s, by simp, h⟩
        · exact ⟨u, by simp [hu], he⟩
      · rcases hb with h | ⟨u, hu, he⟩
        · exact ⟨s, by simp, h⟩
        · exact ⟨u, by simp [hu], he⟩

/-- Claim C10.  For input segments with non-decreasing timestamps (each
segment well-formed and consecutive segments non-overlapping), every chunk
emitted by merge_short_segments lasts at least one second, the output is
ordered and non-overlapping, and every chunk's bounds are timestamps of
input segments, so the output stays within the input's time extent minus the
dropped fragments. -/
theorem c10_merge_invariants (minD maxD : ℚ) (segments : List Segment)
    (hwf : ∀ s ∈ segments, s.start ≤ s.«end»)
    (hord : List.Chain' (fun a b : Segment => a.«end» ≤ b.start) segments) :
    (∀ t ∈ merge_short_segments minD maxD segments, 1 ≤ t.«end» - t.start) ∧
    List.Chain' (fun a b : Segment => a.«end» ≤ b.start)
      (merge_short_segments minD maxD segments) ∧
    (∀ t ∈ merge_short_segments minD maxD segments,
      (∃ s ∈ segments, t.start = s.start) ∧ (∃ s ∈ segments, t.«end» = s.«end»)) :=
  mergeStart_invariants minD maxD segments hwf hord

/-- Witness for c10_merge_invariants on a concrete ordered transcript. -/
theorem c10_merge_invariants_witness :
    (∀ t ∈ merge_short_segments 8 20 segsC10, 1 ≤ t.«end» - t.start) ∧
    List.Chain' (fun a b : Segment => a.«end» ≤ b.start)
      (merge_short_segments 8 20 segsC10) ∧
    (∀ t ∈ merge_short_segments 8 20 segsC10,
      (∃ s ∈ segsC10, t.start = s.start) ∧ (∃ s ∈ segsC10, t.«end» = s.«end»)) :=
  c10_merge_invariants 8 20 segsC10 (by decide)
    (by norm_num [segsC10, List.chain'_cons, List.chain'_singleton])

end Mca
